import Mathlib

/-!
# Verification of `imod.prepare.voxelize`

A shallow embedding of `imod/prepare/voxelize.py` (the `Voxelizer` and its
kernel `_voxelize`, and the edge-inference helper `_coord`), with floats
modelled as rationals (`ℚ`) and NaN modelled as `none : Option ℚ`.

The module `imod.prepare.common` is imported by `voxelize.py` but its source
is not part of this tree; the handful of members `voxelize.py` uses from it
(`_overlap`, the reduction-method registry `METHODS`, `_get_method`,
`_check_monotonic`) are modelled from the specification, and each such
definition is marked `Modelled from the spec:` in its doc comment.
-/

namespace Voxelize

/-- A reduction method takes the `values` and `weights` arrays and produces a
float; `none` stands for a NaN result. -/
def MethodFn : Type := List ℚ → List ℚ → Option ℚ

/-- Python's built-in two-argument `min`: the first argument when equal. -/
def pymin (a b : ℚ) : ℚ := if a ≤ b then a else b

/-- Python's built-in two-argument `max`: the first argument when equal. -/
def pymax (a b : ℚ) : ℚ := if b ≤ a then a else b

/-- `abs` (numpy `np.abs` / Python `abs`) on a rational. -/
def pyabs (a : ℚ) : ℚ := if a < 0 then -a else a

theorem pymin_eq_min (a b : ℚ) : pymin a b = min a b := by
  simp [pymin, min_def]

theorem pymax_eq_max (a b : ℚ) : pymax a b = max a b := by
  rcases le_total a b with h | h
  · rcases eq_or_lt_of_le h with rfl | h'
    · simp [pymax, max_def]
    · simp [pymax, max_def, h, not_le.mpr h']
  · by_cases h2 : a ≤ b
    · have hab : a = b := le_antisymm h2 h
      subst hab; simp [pymax, max_def]
    · simp [pymax, max_def, h, h2]

theorem pyabs_eq_abs (a : ℚ) : pyabs a = |a| := by
  rcases lt_or_ge a 0 with h | h
  · simp [pyabs, h, abs_of_neg h]
  · simp [pyabs, not_lt.mpr h, abs_of_nonneg h]

/-- Modelled from the spec: the overlap kernel `_overlap` of
`imod.prepare.common` (absent from src): given intervals `(a0, a1)` and
`(b0, b1)`, return `max(0, min(a1,b1) - max(a0,b0))`. -/
def _overlap (a b : ℚ × ℚ) : ℚ :=
  pymax 0 (pymin a.2 b.2 - pymax a.1 b.1)

/-- Modelled from the spec: the `mean` reduction method of the registry in
`imod.prepare.common` (absent from src): weighted arithmetic mean
`Σ(vᵢwᵢ)/Σwᵢ`, NaN (`none`) when the total weight is zero (empty
contribution set). -/
def mean : MethodFn := fun values weights =>
  let wsum := weights.foldl (fun a w => a + w) 0
  let vwsum := (values.zip weights).foldl (fun a p => a + p.1 * p.2) 0
  if wsum = 0 then none else some (vwsum / wsum)

/-- State of the per-voxel inner loop of `_voxelize` (voxelize.py lines
37-51): the reusable buffers `values`/`weights` (both of length `nlayer`,
allocated as zeros at lines 20-21), the write cursor `count` and the
`has_value` flag. -/
structure FillState where
  values : List ℚ
  weights : List ℚ
  count : Nat
  has_value : Bool
  deriving Repr, DecidableEq

/-- One iteration of the `jj` loop of `_voxelize` (lines 40-51) on layer
`(top, bot, value)`: zero overlap with `(zb, zt)` is skipped (`continue`),
otherwise the value and overlap are written at position `count` and the
cursor advances. -/
def fillStep (zb zt : ℚ) (s : FillState) (layer : ℚ × ℚ × ℚ) : FillState :=
  let top := layer.1
  let bot := layer.2.1
  let overlap := _overlap (bot, top) (zb, zt)
  if overlap = 0 then s
  else
    { values := s.values.set s.count layer.2.2
      weights := s.weights.set s.count overlap
      count := s.count + 1
      has_value := true }

/-- Layers of one column as `(top, bot, value)` triples, in layer order:
`tops = src_top[:, i, j]`, `bots = src_bot[:, i, j]`, `src[:, i, j]`. -/
def layersOf (tops bots vals : List ℚ) : List (ℚ × ℚ × ℚ) :=
  tops.zip (bots.zip vals)

/-- The whole `jj` loop of `_voxelize` (lines 40-51) for one destination
voxel `(zb, zt)`. -/
def fillBuf (tops bots vals : List ℚ) (zb zt : ℚ) (s : FillState) : FillState :=
  (layersOf tops bots vals).foldl (fillStep zb zt) s

/-- The reset `values[:count] = 0; weights[:count] = 0` of `_voxelize`
(lines 56-57): numpy slice-assignment zeroes the first `count` entries. -/
def zeroSlice (count : Nat) (xs : List ℚ) : List ℚ :=
  List.replicate (min count xs.length) (0 : ℚ) ++ xs.drop count

/-- Body of the `ii` loop of `_voxelize` (lines 29-57) for one destination
voxel with edges `z0`, `z1` (`none` = NaN, skipped by lines 32-33, leaving
the destination cell at its NaN initialisation).  Takes and returns the
persistent `values`/`weights` buffers; `count` and `has_value` are
re-initialised per voxel (lines 37-38).  When `has_value` is set, the
method is applied to the full buffers (line 54) and the written slice is
reset (lines 56-57).  Returns the destination cell (`none` = NaN, never
written) and the buffers after the iteration. -/
def processVoxel (method : MethodFn) (tops bots vals : List ℚ)
    (bufs : List ℚ × List ℚ) (z0 z1 : Option ℚ) :
    Option ℚ × (List ℚ × List ℚ) :=
  match z0, z1 with
  | some z0, some z1 =>
    let zb := pymin z0 z1
    let zt := pymax z0 z1
    let s := fillBuf tops bots vals zb zt ⟨bufs.1, bufs.2, 0, false⟩
    if s.has_value then
      (method s.values s.weights,
       (zeroSlice s.count s.values, zeroSlice s.count s.weights))
    else
      (none, (s.values, s.weights))
  | _, _ => (none, bufs)

/-- The pairs `(dst_z[ii], dst_z[ii+1])` for `ii in range(nz)`,
`nz = dst_z.size - 1` (lines 19, 29-31). -/
def edgePairs (dst_z : List (Option ℚ)) : List (Option ℚ × Option ℚ) :=
  dst_z.zip dst_z.tail

/-- The `ii` loop of `_voxelize` over all destination voxels of one column,
threading the persistent buffers. -/
def voxelLoop (method : MethodFn) (tops bots vals : List ℚ)
    (bufs : List ℚ × List ℚ) :
    List (Option ℚ × Option ℚ) → List (Option ℚ)
  | [] => []
  | p :: ps =>
    let r := processVoxel method tops bots vals bufs p.1 p.2
    r.1 :: voxelLoop method tops bots vals r.2 ps

/-- One map-view column of `_voxelize` (the body of the `i`/`j` loops,
lines 23-57), starting from the zero buffers of length `nlayer`
(lines 20-21; the reset at lines 56-57 restores them to zero after each
voxel, see `voxelLoop_zero_bufs`). -/
def _voxelize_column (method : MethodFn) (tops bots vals : List ℚ)
    (dst_z : List (Option ℚ)) : List (Option ℚ) :=
  let nlayer := tops.length
  voxelLoop method tops bots vals
    (List.replicate nlayer 0, List.replicate nlayer 0) (edgePairs dst_z)

/-- `_voxelize` (voxelize.py lines 16-59) as a map from destination index
`(ii, i, j)` to the destination cell value (`none` = the NaN
initialisation of `dst`).  The outer loops iterate columns `(i, j)`
independently — the buffers are all-zero again at the start of every
column — and each column extracts `src_top[:, i, j]`, `src_bot[:, i, j]`,
`src[:, i, j]` (lines 25-26). -/
def _voxelize (method : MethodFn) (nlayer : Nat)
    (src src_top src_bot : Nat → Nat → Nat → ℚ)
    (dst_z : List (Option ℚ)) (ii i j : Nat) : Option ℚ :=
  let tops := (List.range nlayer).map (fun jj => src_top jj i j)
  let bots := (List.range nlayer).map (fun jj => src_bot jj i j)
  let vals := (List.range nlayer).map (fun jj => src jj i j)
  ((_voxelize_column method tops bots vals dst_z).get? ii).getD none

/-- The positive-overlap contributions `(value, weight)` of a column's
layers for the destination voxel `(zb, zt)`: the pairs that make up the
spec's Contribution Set (layers with zero overlap are skipped by the
`continue` at lines 45-46). -/
def contribs (tops bots vals : List ℚ) (zb zt : ℚ) : List (ℚ × ℚ) :=
  (layersOf tops bots vals).filterMap (fun l =>
    let o := _overlap (l.2.1, l.1) (zb, zt)
    if o = 0 then none else some (l.2.2, o))

/-- C1: the worked example — two layers of values 10 and 20, each 1 m thick,
spanning z = [0, 2] (layer 0: value 10 on [0, 1]; layer 1: value 20 on
[1, 2]), voxelized with the weighted-arithmetic-mean reduction onto
destination voxel edges [0, 0.5, 1.5, 2] — produces the outputs
[10, 15, 20] for every map-view column (i, j). -/
theorem C1_worked_example (i j : Nat) :
    (List.range 3).map (fun ii =>
      _voxelize mean 2
        (fun jj _ _ => if jj = 0 then 10 else 20)
        (fun jj _ _ => if jj = 0 then 1 else 2)
        (fun jj _ _ => if jj = 0 then 0 else 1)
        [some 0, some (1/2), some (3/2), some 2] ii i j)
    = [some 10, some 15, some 20] := by
  norm_num [_voxelize, _voxelize_column, voxelLoop, processVoxel, fillBuf,
    layersOf, fillStep, _overlap, pymin, pymax, zeroSlice, edgePairs, mean,
    List.range_succ, List.replicate, List.set, List.foldl, List.zip,
    List.zipWith, List.tail, List.drop]

/-- C2: the claim that the sequences handed to the reduction method contain
exactly the positive-overlap contributions and nothing else is FALSE of the
code: line 54 passes the full `nlayer`-length buffers
(`method(values, weights)`, not `method(values[:count], weights[:count])`).
At the concrete input below — two layers, destination voxel [0, 0.5],
whose contribution set is exactly [(10, 1/2)] — a reduction method that
reports the length of the values sequence it receives observes length 2,
i.e. a zero-weight padding entry was handed over alongside the single
contribution. -/
theorem C2_padding_reaches_method :
    _voxelize_column (fun vs _ => some ((vs.length : ℚ))) [1, 2] [0, 1]
      [10, 20] [some 0, some (1/2)] = [some 2]
    ∧ contribs [1, 2] [0, 1] [10, 20] 0 (1/2) = [(10, 1/2)] := by
  constructor
  · norm_num [_voxelize_column, voxelLoop, processVoxel, fillBuf, layersOf,
      fillStep, _overlap, pymin, pymax, zeroSlice, edgePairs, List.replicate,
      List.set, List.zip, List.zipWith, List.tail, List.drop]
  · norm_num [contribs, layersOf, _overlap, pymin, pymax, List.filterMap,
      List.zip, List.zipWith]

/-- A layer whose interval has zero overlap with the voxel leaves the fill
state untouched (the `continue` at lines 45-46). -/
theorem foldl_fillStep_id (zb zt : ℚ) (ls : List (ℚ × ℚ × ℚ)) (s : FillState)
    (h : ∀ l ∈ ls, _overlap (l.2.1, l.1) (zb, zt) = 0) :
    ls.foldl (fillStep zb zt) s = s := by
  induction ls generalizing s with
  | nil => rfl
  | cons l ls ih =>
    have h0 : fillStep zb zt s l = s := by
      simp [fillStep, h l (List.mem_cons_self l ls)]
    rw [List.foldl_cons, h0]
    exact ih s (fun x hx => h x (List.mem_cons_of_mem l hx))

/-- If no layer of the column overlaps the voxel, `has_value` stays false:
the destination cell is not written (stays NaN) and no method is applied. -/
theorem processVoxel_no_overlap (method : MethodFn) (tops bots vals : List ℚ)
    (bufs : List ℚ × List ℚ) (z0 z1 : ℚ)
    (h : ∀ l ∈ layersOf tops bots vals,
      _overlap (l.2.1, l.1) (pymin z0 z1, pymax z0 z1) = 0) :
    processVoxel method tops bots vals bufs (some z0) (some z1) = (none, bufs) := by
  simp only [processVoxel, fillBuf]
  rw [foldl_fillStep_id _ _ _ _ h]
  simp

/-- Index-wise reading of the voxel loop at a voxel with no overlapping
layer: the output entry is the NaN initialisation, whatever the buffers. -/
theorem voxelLoop_get?_no_overlap (method : MethodFn) (tops bots vals : List ℚ)
    (ps : List (Option ℚ × Option ℚ)) (bufs : List ℚ × List ℚ) (ii : Nat)
    (z0 z1 : ℚ) (hp : ps.get? ii = some (some z0, some z1))
    (h : ∀ l ∈ layersOf tops bots vals,
      _overlap (l.2.1, l.1) (pymin z0 z1, pymax z0 z1) = 0) :
    (voxelLoop method tops bots vals bufs ps).get? ii = some none := by
  induction ps generalizing bufs ii with
  | nil => simp at hp
  | cons p ps ih =>
    cases ii with
    | zero =>
      simp only [List.get?_cons_zero, Option.some.injEq] at hp
      subst hp
      simp [voxelLoop, processVoxel_no_overlap method tops bots vals bufs z0 z1 h]
    | succ n =>
      simp only [voxelLoop, List.get?_cons_succ]
      exact ih _ n (by simpa using hp)

/-- The layers extracted from the function-view arrays of `_voxelize`. -/
theorem layersOf_range_map (nlayer : Nat) (f g k : Nat → ℚ) :
    layersOf ((List.range nlayer).map f) ((List.range nlayer).map g)
      ((List.range nlayer).map k)
      = (List.range nlayer).map (fun jj => (f jj, g jj, k jj)) := by
  simp [layersOf, List.zip_map']

/-- C4: a destination voxel (with real, non-NaN edges `z0`, `z1`) that
overlaps no source layer of its column is never written: the output cell
keeps the NaN initialisation of `dst` (lines 231-234: `np.full(..., np.nan)`),
and this holds uniformly in the reduction method — the method is never
invoked for that voxel. -/
theorem C4_empty_contribution_nan (method : MethodFn) (nlayer : Nat)
    (src src_top src_bot : Nat → Nat → Nat → ℚ) (dst_z : List (Option ℚ))
    (ii i j : Nat) (z0 z1 : ℚ)
    (h0 : dst_z.get? ii = some (some z0))
    (h1 : dst_z.get? (ii + 1) = some (some z1))
    (hover : ∀ jj < nlayer,
      _overlap (src_bot jj i j, src_top jj i j) (pymin z0 z1, pymax z0 z1) = 0) :
    _voxelize method nlayer src src_top src_bot dst_z ii i j = none := by
  have hp : (edgePairs dst_z).get? ii = some (some z0, some z1) := by
    rw [edgePairs, List.get?_zip_eq_some]
    refine ⟨h0, ?_⟩
    rw [List.get?_eq_getElem?, List.getElem?_tail, ← List.get?_eq_getElem?]
    exact h1
  have hlay : ∀ l ∈ layersOf ((List.range nlayer).map fun jj => src_top jj i j)
      ((List.range nlayer).map fun jj => src_bot jj i j)
      ((List.range nlayer).map fun jj => src jj i j),
      _overlap (l.2.1, l.1) (pymin z0 z1, pymax z0 z1) = 0 := by
    rw [layersOf_range_map]
    intro l hl
    rcases List.mem_map.mp hl with ⟨jj, hjj, rfl⟩
    exact hover jj (List.mem_range.mp hjj)
  simp only [_voxelize, _voxelize_column]
  rw [voxelLoop_get?_no_overlap method _ _ _ _ _ ii z0 z1 hp hlay]
  rfl

/-- Witness for C4 at a concrete input: a single source layer spanning
[0, 1] and a destination voxel [2, 3] entirely above it. -/
theorem C4_empty_contribution_nan_witness :
    _voxelize mean 1 (fun _ _ _ => 5) (fun _ _ _ => 1) (fun _ _ _ => 0)
      [some 2, some 3] 0 0 0 = none := by
  apply C4_empty_contribution_nan mean 1 (fun _ _ _ => 5) (fun _ _ _ => 1)
    (fun _ _ _ => 0) [some 2, some 3] 0 0 0 2 3 rfl rfl
  intro jj _
  norm_num [_overlap, pymin, pymax]

/-! ## `_coord` (voxelize.py lines 62-95): axis-edge inference -/

/-- numpy `np.diff`: `dxs[i] = x[i+1] - x[i]` (line 74). -/
def diffs (xs : List ℚ) : List ℚ :=
  (xs.zip xs.tail).map (fun p => p.2 - p.1)

/-- Modelled from the spec: `_check_monotonic` of `imod.prepare.common`
(absent from src; called by `_coord` at voxelize.py line 71): validates that
the explicit spacings have a monotonic-consistent sign (all positive or all
negative), a ValidationError otherwise. -/
def _check_monotonic (dxs : List ℚ) : Except String Unit :=
  if dxs.all (fun d => decide (0 < d)) || dxs.all (fun d => decide (d < 0)) then
    .ok ()
  else .error "ValidationError: coordinate is not monotonic"

/-- numpy `np.allclose(a, b, r)` with a scalar `b`, the third positional
argument being `rtol` and `atol` left at its default `1e-8`:
elementwise `|a[i] - b| <= atol + rtol * |b|`. -/
def allclose_rtol (a : List ℚ) (b rtol : ℚ) : Bool :=
  a.all (fun x => decide (pyabs (x - b) ≤ 1 / 100000000 + rtol * pyabs b))

/-- The spacing-producing part of `_coord` (voxelize.py lines 65-82):
either the explicit spacing coordinate (`spacing = some [d]` models a
scalar `dx`, broadcast to all cells; `some ds` an array, used directly
after `_check_monotonic`), or — when absent — the spacing inferred from
consecutive centers, guarded by the equidistance check
`np.allclose(dxs, dx, atolx)` with `atolx = abs(1.0e-6 * dx)` (line 76-77;
`atolx` is the third positional argument of `np.allclose`, hence `rtol`),
then broadcast: `np.full(da[dim].size, dx)` (line 82). -/
def coordDxs (centers : List ℚ) (spacing : Option (List ℚ)) :
    Except String (List ℚ) :=
  match spacing with
  | some dx =>
    let dxs := if dx.length = 1 then List.replicate centers.length (dx.headD 0)
               else dx
    match _check_monotonic dxs with
    | .ok _ => .ok dxs
    | .error e => .error e
  | none =>
    let dxs := diffs centers
    let dx := dxs.headD 0
    let atolx := pyabs (1 / 1000000 * dx)
    if allclose_rtol dxs dx atolx then .ok (List.replicate centers.length dx)
    else
      .error "ValidationError: DataArray has to be equidistant along dim, or cellsizes must be provided as a coordinate."

/-- The sign fixing of `_coord` (lines 84-89): absolute values, negated when
the centers decrease (`x.size > 1 and x[1] < x[0]`). -/
def applySign (centers : List ℚ) (dxs : List ℚ) : List ℚ :=
  let adxs := dxs.map pyabs
  match centers with
  | c0 :: c1 :: _ => if c1 < c0 then adxs.map (fun d => -d) else adxs
  | _ => adxs

/-- `_coord` (voxelize.py lines 62-95): edge coordinates of an axis from
cell centers and the optional spacing coordinate: validated spacings, sign
fixing, then `x0 = x[0] - 0.5 * dxs[0]` and the cumulative sum
`x[1:] += np.cumsum(dxs)` (lines 91-95). -/
def _coord (centers : List ℚ) (spacing : Option (List ℚ)) :
    Except String (List ℚ) :=
  match coordDxs centers spacing with
  | .error e => .error e
  | .ok dxs0 =>
    let dxs := applySign centers dxs0
    let x0 := centers.headD 0 - 1 / 2 * dxs.headD 0
    .ok (List.scanl (fun a b => a + b) x0 dxs)

theorem scanl_add_getD_zero (b : ℚ) (l : List ℚ) :
    (List.scanl (fun a c => a + c) b l).getD 0 0 = b := by
  cases l <;> rfl

theorem scanl_add_headD (b : ℚ) (l : List ℚ) :
    (List.scanl (fun a c => a + c) b l).headD 0 = b := by
  cases l <;> rfl

/-- Successive cumulative-sum edges differ by the spacing entry. -/
theorem scanl_add_getD_succ (l : List ℚ) (b : ℚ) (i : Nat) (h : i < l.length) :
    (List.scanl (fun a c => a + c) b l).getD (i + 1) 0
      = (List.scanl (fun a c => a + c) b l).getD i 0 + l.getD i 0 := by
  induction l generalizing b i with
  | nil => simp at h
  | cons x xs ih =>
    rw [List.scanl_cons]
    cases i with
    | zero =>
      simp only [List.singleton_append, List.getD_cons_succ, List.getD_cons_zero,
        scanl_add_getD_zero]
    | succ n =>
      simp only [List.singleton_append, List.getD_cons_succ]
      exact ih (b + x) n (Nat.lt_of_succ_lt_succ h)

/-- Closed form of the cumulative sum over a constant spacing. -/
theorem scanl_add_replicate_getD (n : Nat) (b d : ℚ) (i : Nat) (h : i ≤ n) :
    (List.scanl (fun a c => a + c) b (List.replicate n d)).getD i 0
      = b + i * d := by
  induction n generalizing b i with
  | zero =>
    have hi : i = 0 := Nat.le_zero.mp h
    subst hi
    simp [scanl_add_getD_zero]
  | succ m ih =>
    cases i with
    | zero => simp [scanl_add_getD_zero]
    | succ k =>
      rw [List.replicate_succ, List.scanl_cons]
      simp only [List.singleton_append, List.getD_cons_succ]
      rw [ih (b + d) k (Nat.lt_succ_iff.mp h)]
      push_cast
      ring

theorem applySign_length (centers dxs : List ℚ) :
    (applySign centers dxs).length = dxs.length := by
  rcases centers with _ | ⟨c0, rest⟩
  · simp [applySign]
  · rcases rest with _ | ⟨c1, rest⟩
    · simp [applySign]
    · by_cases h : c1 < c0 <;> simp [applySign, h]

/-- With at least two centers, sign fixing keeps a constant spacing that is
consistent with the direction of the centers. -/
theorem applySign_replicate (centers : List ℚ) (n : Nat) (d : ℚ)
    (h2 : 2 ≤ centers.length)
    (hd : centers.getD 1 0 - centers.getD 0 0 = d) :
    applySign centers (List.replicate n d) = List.replicate n d := by
  rcases centers with _ | ⟨c0, rest⟩
  · simp at h2
  · rcases rest with _ | ⟨c1, rest⟩
    · simp at h2
    · simp only [List.getD_cons_succ, List.getD_cons_zero] at hd
      by_cases h : c1 < c0
      · have hdneg : d < 0 := by rw [← hd]; linarith
        simp [applySign, h, List.map_replicate, pyabs, hdneg, not_lt.mpr (le_of_lt hdneg)]
      · have hdpos : 0 ≤ d := by rw [← hd]; linarith [not_lt.mp h]
        simp [applySign, h, List.map_replicate, pyabs, not_lt.mpr hdpos]

/-- Spacings accepted by `_check_monotonic` are all nonzero. -/
theorem check_monotonic_ne_zero (ds : List ℚ)
    (h : _check_monotonic ds = .ok ()) : ∀ d ∈ ds, d ≠ 0 := by
  intro d hd
  simp only [_check_monotonic] at h
  split at h
  · next hall =>
    simp only [Bool.or_eq_true] at hall
    rcases hall with hp | hn
    · have hpos := List.all_eq_true.mp hp d hd
      simp only [decide_eq_true_eq] at hpos
      exact ne_of_gt hpos
    · have hneg := List.all_eq_true.mp hn d hd
      simp only [decide_eq_true_eq] at hneg
      exact ne_of_lt hneg
  · cases h

/-- All validated spacings are nonzero (for the inferred branch this needs
the first two centers to differ). -/
theorem coordDxs_ne_zero (centers : List ℚ) (spacing : Option (List ℚ))
    (dxs0 : List ℚ) (h2 : 2 ≤ centers.length)
    (hne : centers.getD 1 0 ≠ centers.getD 0 0)
    (h : coordDxs centers spacing = .ok dxs0) :
    ∀ d ∈ dxs0, d ≠ 0 := by
  intro d hd
  rcases spacing with _ | dx
  · simp only [coordDxs] at h
    split at h
    · injection h with h
      subst h
      have hdx := List.eq_of_mem_replicate hd
      subst hdx
      rcases centers with _ | ⟨c0, rest⟩
      · simp at h2
      · rcases rest with _ | ⟨c1, rest⟩
        · simp at h2
        · simp only [List.getD_cons_succ, List.getD_cons_zero] at hne
          simp only [diffs, List.tail_cons, List.zip_cons_cons, List.map_cons,
            List.headD_cons]
          exact sub_ne_zero.mpr hne
    · cases h
  · simp only [coordDxs] at h
    rcases hchk : _check_monotonic
        (if dx.length = 1 then List.replicate centers.length (dx.headD 0)
         else dx) with e | u
    · rw [hchk] at h; cases h
    · rw [hchk] at h
      injection h with h
      subst h
      cases u
      exact check_monotonic_ne_zero _ hchk d hd

theorem getD_map_lt (f : ℚ → ℚ) (l : List ℚ) (i : Nat) (h : i < l.length) :
    (l.map f).getD i 0 = f (l.getD i 0) := by
  induction l generalizing i with
  | nil => simp at h
  | cons x xs ih =>
    cases i with
    | zero => rfl
    | succ n => simpa using ih n (Nat.lt_of_succ_lt_succ h)

theorem getD_mem_of_lt (l : List ℚ) (i : Nat) (h : i < l.length) :
    l.getD i 0 ∈ l := by
  rw [List.getD_eq_getElem?_getD, List.getElem?_eq_getElem h]
  simp

/-- Centers with constant consecutive difference `d` are affine in the
index. -/
theorem centers_arith (centers : List ℚ) (d : ℚ)
    (hconst : ∀ i, i + 1 < centers.length →
      centers.getD (i + 1) 0 = centers.getD i 0 + d) :
    ∀ i < centers.length, centers.getD i 0 = centers.getD 0 0 + i * d := by
  intro i
  induction i with
  | zero => intro _; simp
  | succ k ih =>
    intro hk
    have hk' : k < centers.length := Nat.lt_of_succ_lt hk
    rw [hconst k hk, ih hk']
    push_cast
    ring

/-- C5: the edge array produced by `_coord` has length cell-count + 1, its
first entry is the first center minus half the first (signed) spacing, each
subsequent entry is the previous entry plus the signed spacing
(`applySign centers dxs0`, whose sign follows the direction of the
centers), edges strictly decrease when the centers decrease with index,
and — for an (exactly) equidistant axis with inferred spacing — consecutive
edges differ by exactly the spacing while each center is the midpoint of
its two edges. -/
theorem C5_coord_edge_properties (centers : List ℚ) (spacing : Option (List ℚ))
    (dxs0 edges : List ℚ)
    (h2 : 2 ≤ centers.length)
    (hdx : coordDxs centers spacing = .ok dxs0)
    (hlen : dxs0.length = centers.length)
    (hcoord : _coord centers spacing = .ok edges) :
    edges.length = centers.length + 1
    ∧ edges.headD 0
        = centers.headD 0 - 1 / 2 * (applySign centers dxs0).headD 0
    ∧ (∀ i < centers.length,
        edges.getD (i + 1) 0
          = edges.getD i 0 + (applySign centers dxs0).getD i 0)
    ∧ (centers.getD 1 0 < centers.getD 0 0 →
        ∀ i < centers.length, edges.getD (i + 1) 0 < edges.getD i 0)
    ∧ (∀ d, spacing = none →
        (∀ i, i + 1 < centers.length →
          centers.getD (i + 1) 0 = centers.getD i 0 + d) →
        ∀ i < centers.length,
          edges.getD (i + 1) 0 - edges.getD i 0 = d
          ∧ centers.getD i 0 = (edges.getD i 0 + edges.getD (i + 1) 0) / 2) := by
  have hedges : edges = List.scanl (fun a b => a + b)
      (centers.headD 0 - 1 / 2 * (applySign centers dxs0).headD 0)
      (applySign centers dxs0) := by
    simp only [_coord, hdx] at hcoord
    injection hcoord with h
    exact h.symm
  have hslen : (applySign centers dxs0).length = centers.length := by
    rw [applySign_length, hlen]
  have part3 : ∀ i < centers.length,
      edges.getD (i + 1) 0
        = edges.getD i 0 + (applySign centers dxs0).getD i 0 := by
    intro i hi
    rw [hedges]
    exact scanl_add_getD_succ _ _ i (by rw [hslen]; exact hi)
  refine ⟨?_, ?_, part3, ?_, ?_⟩
  · rw [hedges, List.length_scanl, hslen]
  · rw [hedges, scanl_add_headD]
  · -- decreasing centers give decreasing edges
    intro hdec i hi
    have hnz : ∀ x ∈ dxs0, x ≠ 0 :=
      coordDxs_ne_zero centers spacing dxs0 h2 (ne_of_lt hdec) hdx
    have hasneg : (applySign centers dxs0).getD i 0 < 0 := by
      rcases centers with _ | ⟨c0, rest⟩
      · simp at h2
      · rcases rest with _ | ⟨c1, rest⟩
        · simp at h2
        · simp only [List.getD_cons_succ, List.getD_cons_zero] at hdec
          have hi0 : i < dxs0.length := by
            rw [hlen]; exact hi
          have happ : applySign (c0 :: c1 :: rest) dxs0
              = (dxs0.map pyabs).map (fun x => -x) := by
            simp [applySign, hdec]
          rw [happ, getD_map_lt _ _ i (by simpa using hi0),
            getD_map_lt _ _ i hi0]
          have hx := hnz _ (getD_mem_of_lt dxs0 i hi0)
          have hpos : 0 < pyabs (dxs0.getD i 0) := by
            rw [pyabs_eq_abs]
            exact abs_pos.mpr hx
          linarith
    have := part3 i hi
    linarith
  · -- equidistant (inferred) spacing
    intro d hnone hconst i hi
    subst hnone
    simp only [coordDxs] at hdx
    split at hdx
    case isFalse => cases hdx
    case isTrue hclose =>
      injection hdx with hdx
      have hd : (diffs centers).headD 0 = d := by
        rcases centers with _ | ⟨c0, rest⟩
        · simp at h2
        · rcases rest with _ | ⟨c1, rest⟩
          · simp at h2
          · have h01 := hconst 0 (by simp)
            simp only [List.getD_cons_succ, List.getD_cons_zero] at h01
            simp only [diffs, List.tail_cons, List.zip_cons_cons,
              List.map_cons, List.headD_cons]
            linarith
      rw [hd] at hdx
      have happ : applySign centers dxs0 = List.replicate centers.length d := by
        rw [← hdx]
        apply applySign_replicate centers centers.length d h2
        have h01 := hconst 0 (by omega)
        rw [h01]; ring
      have hhead : (applySign centers dxs0).headD 0 = d := by
        rw [happ]
        rcases centers with _ | ⟨c0, rest⟩
        · simp at h2
        · simp [List.replicate_succ]
      have hgetD : ∀ k ≤ centers.length,
          edges.getD k 0 = centers.headD 0 - 1 / 2 * d + k * d := by
        intro k hk
        rw [hedges, hhead, happ]
        exact scanl_add_replicate_getD centers.length _ d k hk
      have hc0 : centers.headD 0 = centers.getD 0 0 := by
        rcases centers with _ | ⟨c0, rest⟩
        · simp at h2
        · rfl
      have hcent := centers_arith centers d hconst i hi
      constructor
      · rw [hgetD (i + 1) (by omega), hgetD i (by omega)]
        push_cast
        ring
      · rw [hgetD (i + 1) (by omega), hgetD i (by omega), hcent, ← hc0]
        push_cast
        ring

/-! ## The `Voxelizer` class (voxelize.py lines 10-13 and 98-236) -/

/-- Modelled from the spec: `sum` of the §4.3 registry: unweighted total of
the contributing values, NaN when there is none. -/
def method_sum : MethodFn := fun values _ =>
  if values.isEmpty then none else some (values.foldl (fun a v => a + v) 0)

/-- Modelled from the spec: `harmonic_mean` of the §4.3 registry:
`Σwᵢ / Σ(wᵢ/vᵢ)`, NaN if any `vᵢ = 0` or the contribution set is empty. -/
def harmonic_mean : MethodFn := fun values weights =>
  let wsum := weights.foldl (fun a w => a + w) 0
  if values.contains 0 ∨ wsum = 0 then none
  else some (wsum / (values.zip weights).foldl (fun a p => a + p.2 / p.1) 0)

/-- Modelled from the spec: `minimum` of the §4.3 registry: unweighted
minimum of the contributing values, NaN when there is none. -/
def method_minimum : MethodFn := fun values _ =>
  match values with
  | [] => none
  | v :: vs => some (vs.foldl pymin v)

/-- Modelled from the spec: `maximum` of the §4.3 registry: unweighted
maximum of the contributing values, NaN when there is none. -/
def method_maximum : MethodFn := fun values _ =>
  match values with
  | [] => none
  | v :: vs => some (vs.foldl pymax v)

/-- Modelled from the spec: `max_overlap` of the §4.3 registry: the value of
the single contributing cell with the greatest overlap weight (first
encountered on ties), NaN when there is none. -/
def max_overlap : MethodFn := fun values weights =>
  match values.zip weights with
  | [] => none
  | p :: ps =>
    some (ps.foldl (fun best q => if best.2 < q.2 then q else best) p).1

/-- An uninterpreted reduction method: `geometric_mean` (needs `exp`/`ln`,
not expressible over exact rationals), `mode`/`median` (order statistics),
`conductance` (its formula is left open by the spec itself) and the
interpolation-based `nearest`/`multilinear` are registered under this
placeholder; no claim below depends on their bodies, only on the registry's
keys. -/
def uninterpretedMethod : MethodFn := fun _ _ => none

/-- Modelled from the spec: the reduction-method registry
`imod.prepare.common.METHODS` (absent from src), the fixed catalog of §4.3,
binding each name to its reduction function. -/
def commonMETHODS : List (String × MethodFn) :=
  [("mean", mean), ("harmonic_mean", harmonic_mean),
   ("geometric_mean", uninterpretedMethod), ("sum", method_sum),
   ("minimum", method_minimum), ("maximum", method_maximum),
   ("mode", uninterpretedMethod), ("median", uninterpretedMethod),
   ("conductance", uninterpretedMethod), ("max_overlap", max_overlap),
   ("nearest", uninterpretedMethod), ("multilinear", uninterpretedMethod)]

/-- voxelize.py lines 10-13: `METHODS = common.METHODS.copy()` then
`METHODS.pop("conductance")`, `METHODS.pop("nearest")`,
`METHODS.pop("multilinear")`. -/
def METHODS : List (String × MethodFn) :=
  commonMETHODS.filter (fun p =>
    !(p.1 == "conductance" || p.1 == "nearest" || p.1 == "multilinear"))

/-- A method argument: a registry name or a caller-supplied function. -/
inductive MethodSpec where
  | name (s : String)
  | func (f : MethodFn)

/-- Modelled from the spec: `_get_method` of `imod.prepare.common` (absent
from src): a string is looked up in the registry — an unknown (or, for the
Voxelizer, disallowed) name raises a ConfigurationError naming the
attempted method — while a caller-supplied function is used directly. -/
def _get_method (m : MethodSpec) (methods : List (String × MethodFn)) :
    Except String MethodFn :=
  match m with
  | .name s =>
    match methods.lookup s with
    | some f => .ok f
    | none => .error ("ConfigurationError: invalid method: " ++ s)
  | .func f => .ok f

/-- The `Voxelizer` instance state: `self.method` (the resolved reduction
function, line 144), `self._first_call` (line 145) and the compiled
closure `self._voxelize` (`none` until `_make_voxelize` builds it). -/
structure VoxelizerState where
  method : MethodFn
  first_call : Bool
  plan : Option MethodFn

/-- `numba.njit` (line 151): a semantics-preserving compilation step. -/
def njit (f : MethodFn) : MethodFn := f

/-- `Voxelizer.__init__` (lines 142-145): resolve `method` against the
restricted `METHODS` registry (a ConfigurationError for a name not in it,
raised before any `voxelize` call is possible); `use_relative_weights` is
accepted and ignored. -/
def Voxelizer.init (method : MethodSpec) (use_relative_weights : Bool) :
    Except String VoxelizerState :=
  match _get_method method METHODS with
  | .ok m => .ok { method := m, first_call := true, plan := none }
  | .error e => .error e

/-- Lines 209-211 with `_make_voxelize` (lines 147-157): on the first call
the plan is compiled from `self.method` and the flag cleared; on any later
call the state is left untouched. -/
def advancePlan (s : VoxelizerState) : VoxelizerState :=
  if s.first_call then
    { s with plan := some (njit s.method), first_call := false }
  else s

/-- The tagged-array view `voxelize` needs of `source`, `top` and `bottom`:
dimension names, per-dimension coordinate values, dense values indexed
`(layer, row, column)`. -/
structure Grid3 where
  dims : List String
  layer_coord : List ℚ
  y_coord : List ℚ
  x_coord : List ℚ
  values : Nat → Nat → Nat → ℚ

/-- The destination template `like`: its vertical coordinate `z`, the
optional `dz` coordinate (`some [d]` models a scalar, a longer list an
array) and whatever horizontal coordinates it may carry. -/
structure Like where
  z : List ℚ
  dz : Option (List ℚ)
  y_coord : Option (List ℚ)
  x_coord : Option (List ℚ)
  deriving DecidableEq

/-- Lines 189-197: when `like` carries no `dz` coordinate, its `z`
coordinate must satisfy `np.allclose(dzs, dz)` — numpy *default* tolerances
`rtol = 1e-5`, `atol = 1e-8` — and the scalar `dz = dzs[0]` is then
assigned onto the caller's `like` (`like["dz"] = dz`); a `like` that
already has `dz` passes through untouched. -/
def ensure_dz (like : Like) : Except String Like :=
  match like.dz with
  | some _ => .ok like
  | none =>
    let dzs := diffs like.z
    let dz := dzs.headD 0
    if allclose_rtol dzs dz (1 / 100000) then .ok { like with dz := some [dz] }
    else
      .error "ValidationError: dz has to be given as a coordinate in case of non-equidistant z coordinate."

/-- Lines 198-203: `top`, `bottom` and `source` must have dimensions
exactly `("layer", "y", "x")`. -/
def dimsCheck (top bottom source : Grid3) : Except String Unit :=
  if top.dims = ["layer", "y", "x"] ∧ bottom.dims = ["layer", "y", "x"]
      ∧ source.dims = ["layer", "y", "x"] then .ok ()
  else
    .error "ValidationError: Dimensions for top, bottom, and source have to be exactly (layer, y, x)."

/-- Lines 204-207: `bottom` and `source` must carry the same coordinates
as `top`. -/
def coordsCheck (top bottom source : Grid3) : Except String Unit :=
  if (top.layer_coord = bottom.layer_coord ∧ top.y_coord = bottom.y_coord
        ∧ top.x_coord = bottom.x_coord)
      ∧ (top.layer_coord = source.layer_coord ∧ top.y_coord = source.y_coord
        ∧ top.x_coord = source.x_coord) then .ok ()
  else .error "ValidationError: Input coordinates do not match"

/-- pandas `Index.is_monotonic_increasing` (line 214): non-strictly
increasing. -/
def monotonicIncreasing (xs : List ℚ) : Bool :=
  (xs.zip xs.tail).all (fun p => decide (p.1 ≤ p.2))

/-- Lines 213-218: the destination voxel edges, via `common._coord` on the
`z` axis — `common.py` is absent from src, so the call is modelled by the
textually identical local `_coord` (lines 62-95) — applied to the reversed
axis (and reversed back) when `z` is not monotonically increasing; a
non-scalar `dz` coordinate is reversed along with it. -/
def dstZ (like : Like) : Except String (List ℚ) :=
  if monotonicIncreasing like.z then _coord like.z like.dz
  else
    match _coord like.z.reverse
        (like.dz.map (fun d => if d.length = 1 then d else d.reverse)) with
    | .ok edges => .ok edges.reverse
    | .error e => .error e

/-- The output `DataArray` of `voxelize` (lines 220-236): dimensions,
per-dimension coordinates and values (`none` = NaN). -/
structure VoxResult where
  dims : List String
  z_coord : List ℚ
  y_coord : List ℚ
  x_coord : List ℚ
  values : Nat → Nat → Nat → Option ℚ

/-- `Voxelizer.voxelize` (lines 159-236) as explicit state passing: takes
the instance state and the arguments and returns the updated instance
state, together with either the validation error or the result and the
(possibly mutated, line 197) `like`.  The validations (lines 184-207)
precede the plan construction (lines 209-211), so a call that fails
validation leaves the instance state unchanged; `source`, `top` and
`bottom` are never written.  The output takes `z` from `like` and `y`/`x`
from `source` (lines 223-227); nothing of `like` other than its `z`/`dz`
enters the computation. -/
def Voxelizer.voxelize (s : VoxelizerState) (source top bottom : Grid3)
    (like : Like) : VoxelizerState × Except String (VoxResult × Like) :=
  match ensure_dz like with
  | .error e => (s, .error e)
  | .ok like' =>
    match dimsCheck top bottom source with
    | .error e => (s, .error e)
    | .ok _ =>
      match coordsCheck top bottom source with
      | .error e => (s, .error e)
      | .ok _ =>
        let s' := advancePlan s
        match dstZ like' with
        | .error e => (s', .error e)
        | .ok dst_z =>
          let m := s'.plan.getD s'.method
          (s',
           .ok ({ dims := ["z", "y", "x"]
                  z_coord := like'.z
                  y_coord := source.y_coord
                  x_coord := source.x_coord
                  values := fun ii i j =>
                    _voxelize m source.layer_coord.length source.values
                      top.values bottom.values (dst_z.map some) ii i j },
                like'))

/-! ## The buffer reset restores all-zero buffers

The reusable `values`/`weights` buffers are zero at allocation (lines
20-21) and the reset at lines 56-57 zeroes exactly the written slice, so
every voxel — and every column — starts from all-zero buffers; this
justifies reading `_voxelize` column by column. -/

/-- Buffer entries at or beyond the cursor are zero, and the buffer
lengths are `n`. -/
def cleanBeyond (n : Nat) (s : FillState) : Prop :=
  s.values.length = n ∧ s.weights.length = n
  ∧ ∀ k, s.count ≤ k → s.values.getD k 0 = 0 ∧ s.weights.getD k 0 = 0

theorem getD_set_ne (l : List ℚ) (i j : Nat) (a : ℚ) (h : i ≠ j) :
    (l.set i a).getD j 0 = l.getD j 0 := by
  rw [List.getD_eq_getElem?_getD, List.getD_eq_getElem?_getD,
    List.getElem?_set_ne h]

theorem fillStep_clean (zb zt : ℚ) (n : Nat) (s : FillState) (l : ℚ × ℚ × ℚ)
    (h : cleanBeyond n s) : cleanBeyond n (fillStep zb zt s l) := by
  rcases h with ⟨hv, hw, hk⟩
  simp only [fillStep]
  split
  · exact ⟨hv, hw, hk⟩
  · refine ⟨by simpa using hv, by simpa using hw, ?_⟩
    intro k hk1
    dsimp only at hk1 ⊢
    have hne : s.count ≠ k := by omega
    have hge : s.count ≤ k := by omega
    constructor
    · rw [getD_set_ne _ _ _ _ hne]
      exact (hk k hge).1
    · rw [getD_set_ne _ _ _ _ hne]
      exact (hk k hge).2

theorem foldl_fillStep_clean (zb zt : ℚ) (n : Nat) (ls : List (ℚ × ℚ × ℚ))
    (s : FillState) (h : cleanBeyond n s) :
    cleanBeyond n (ls.foldl (fillStep zb zt) s) := by
  induction ls generalizing s with
  | nil => exact h
  | cons l ls ih => exact ih _ (fillStep_clean zb zt n s l h)

theorem fillStep_keeps_true (zb zt : ℚ) (s : FillState) (l : ℚ × ℚ × ℚ)
    (h : s.has_value = true) : (fillStep zb zt s l).has_value = true := by
  simp only [fillStep]
  split
  · exact h
  · rfl

theorem foldl_fillStep_keeps_true (zb zt : ℚ) (ls : List (ℚ × ℚ × ℚ))
    (s : FillState) (h : s.has_value = true) :
    (ls.foldl (fillStep zb zt) s).has_value = true := by
  induction ls generalizing s with
  | nil => exact h
  | cons l ls ih => exact ih _ (fillStep_keeps_true zb zt s l h)

/-- A fill pass that ends with `has_value = false` never wrote anything. -/
theorem foldl_fillStep_false_eq (zb zt : ℚ) (ls : List (ℚ × ℚ × ℚ))
    (s : FillState) (h0 : s.has_value = false)
    (hf : (ls.foldl (fillStep zb zt) s).has_value = false) :
    ls.foldl (fillStep zb zt) s = s := by
  induction ls generalizing s with
  | nil => rfl
  | cons l ls ih =>
    by_cases hov : _overlap (l.2.1, l.1) (zb, zt) = 0
    · have hid : fillStep zb zt s l = s := by simp [fillStep, hov]
      rw [List.foldl_cons, hid] at hf ⊢
      exact ih s h0 hf
    · exfalso
      have h1 : (fillStep zb zt s l).has_value = true := by
        simp [fillStep, hov]
      rw [List.foldl_cons] at hf
      rw [foldl_fillStep_keeps_true zb zt ls _ h1] at hf
      cases hf

theorem zeroSlice_zero (xs : List ℚ) : zeroSlice 0 xs = xs := by
  simp [zeroSlice]

theorem zeroSlice_succ_cons (c : Nat) (x : ℚ) (xs : List ℚ) :
    zeroSlice (c + 1) (x :: xs) = 0 :: zeroSlice c xs := by
  simp [zeroSlice, List.replicate_succ, Nat.succ_min_succ]

theorem all_zero_eq_replicate (xs : List ℚ)
    (h : ∀ k, xs.getD k 0 = 0) : xs = List.replicate xs.length 0 := by
  induction xs with
  | nil => rfl
  | cons x xs ih =>
    have h0 := h 0
    simp only [List.getD_cons_zero] at h0
    subst h0
    rw [List.length_cons, List.replicate_succ]
    congr 1
    exact ih (fun k => by simpa using h (k + 1))

/-- The reset `values[:count] = 0` of a buffer whose entries from `count`
on are zero gives back the all-zero buffer. -/
theorem zeroSlice_of_clean (c : Nat) (xs : List ℚ)
    (h : ∀ k, c ≤ k → xs.getD k 0 = 0) :
    zeroSlice c xs = List.replicate xs.length 0 := by
  induction xs generalizing c with
  | nil => simp [zeroSlice]
  | cons x xs ih =>
    cases c with
    | zero =>
      rw [zeroSlice_zero]
      exact all_zero_eq_replicate _ (fun k => (h k (Nat.zero_le k)))
    | succ c' =>
      rw [zeroSlice_succ_cons, List.length_cons, List.replicate_succ]
      congr 1
      exact ih c' (fun k hk => by simpa using h (k + 1) (Nat.succ_le_succ hk))

/-- One voxel iteration, started on all-zero buffers, hands back all-zero
buffers (lines 56-57), whatever the layers, the voxel edges and the
method. -/
theorem processVoxel_buffers_zero (method : MethodFn)
    (tops bots vals : List ℚ) (n : Nat) (z0 z1 : Option ℚ) :
    (processVoxel method tops bots vals
      (List.replicate n 0, List.replicate n 0) z0 z1).2
      = (List.replicate n 0, List.replicate n 0) := by
  rcases z0 with _ | z0 <;> rcases z1 with _ | z1 <;>
    simp only [processVoxel]
  have hclean : cleanBeyond n (fillBuf tops bots vals (pymin z0 z1)
      (pymax z0 z1) ⟨List.replicate n 0, List.replicate n 0, 0, false⟩) := by
    apply foldl_fillStep_clean
    refine ⟨List.length_replicate n 0, List.length_replicate n 0, ?_⟩
    intro k _
    constructor <;>
      · rw [List.getD_eq_getElem?_getD, List.getElem?_replicate]
        split <;> rfl
  rcases hclean with ⟨hv, hw, hk⟩
  split
  · simp only [Prod.mk.injEq]
    constructor
    · rw [zeroSlice_of_clean _ _ (fun k hkk => (hk k hkk).1), hv]
    · rw [zeroSlice_of_clean _ _ (fun k hkk => (hk k hkk).2), hw]
  · next hfalse =>
    have hid := foldl_fillStep_false_eq (pymin z0 z1) (pymax z0 z1)
      (layersOf tops bots vals)
      ⟨List.replicate n 0, List.replicate n 0, 0, false⟩ rfl
      (by simpa [fillBuf] using Bool.of_not_eq_true hfalse)
    simp only [fillBuf] at hid ⊢
    rw [hid]

/-- Starting from all-zero buffers, the voxel loop is a plain map: every
voxel sees all-zero buffers (and so does the next column). -/
theorem voxelLoop_zero_bufs (method : MethodFn) (tops bots vals : List ℚ)
    (n : Nat) (ps : List (Option ℚ × Option ℚ)) :
    voxelLoop method tops bots vals
      (List.replicate n 0, List.replicate n 0) ps
      = ps.map (fun p => (processVoxel method tops bots vals
          (List.replicate n 0, List.replicate n 0) p.1 p.2).1) := by
  induction ps with
  | nil => rfl
  | cons p ps ih =>
    simp only [voxelLoop, List.map_cons]
    rw [processVoxel_buffers_zero method tops bots vals n p.1 p.2, ih]

theorem METHODS_eq : METHODS =
    [("mean", mean), ("harmonic_mean", harmonic_mean),
     ("geometric_mean", uninterpretedMethod), ("sum", method_sum),
     ("minimum", method_minimum), ("maximum", method_maximum),
     ("mode", uninterpretedMethod), ("median", uninterpretedMethod),
     ("max_overlap", max_overlap)] := rfl

/-- C3: constructing a Voxelizer with `"conductance"`, `"nearest"` or
`"multilinear"` — all three absent from the Voxelizer's `METHODS`
registry — fails with a ConfigurationError inside `Voxelizer.__init__`,
before any voxelize call can exist; construction succeeds for every name
kept in the registry. -/
theorem C3_disallowed_methods (urw : Bool) :
    (∀ s ∈ (["conductance", "nearest", "multilinear"] : List String),
      METHODS.lookup s = none
      ∧ ∃ e, Voxelizer.init (.name s) urw = .error e)
    ∧ (∀ p ∈ METHODS, ∃ st, Voxelizer.init (.name p.1) urw = .ok st) := by
  constructor
  · intro s hs
    fin_cases hs <;> exact ⟨rfl, _, rfl⟩
  · intro p hp
    rw [METHODS_eq] at hp
    fin_cases hp <;> exact ⟨_, rfl⟩

/-- `np.allclose` (scalar second argument), read as a quantified bound. -/
theorem allclose_rtol_iff (a : List ℚ) (b r : ℚ) :
    allclose_rtol a b r = true
      ↔ ∀ d ∈ a, |d - b| ≤ 1 / 100000000 + r * |b| := by
  simp [allclose_rtol, pyabs_eq_abs]

/-- C6 counterexample: for centers `[0, 1000, 2000.5]` the inferred
spacings `[1000, 1000.5]` are *not* all equal to the first spacing within a
relative tolerance of 1e-6 of the spacing magnitude (the deviation is 0.5 >
1e-3), yet `_coord`'s equidistance check accepts them — the claim's "if and
only if" is false on the code. -/
theorem C6_tolerance_counterexample :
    ¬ (∀ d ∈ diffs [0, 1000, 4001/2],
        |d - (diffs [(0 : ℚ), 1000, 4001/2]).headD 0|
          ≤ |1 / 1000000 * (diffs [(0 : ℚ), 1000, 4001/2]).headD 0|)
    ∧ ∃ dxs, coordDxs [0, 1000, 4001/2] none = .ok dxs := by
  constructor
  · intro hall
    have hmem : (2001 / 2 : ℚ) ∈ diffs [0, 1000, 4001/2] := by
      norm_num [diffs]
    have h2 := hall (2001/2) hmem
    rw [show (diffs [(0 : ℚ), 1000, 4001/2]).headD 0 = 1000 by
      norm_num [diffs]] at h2
    rw [show |(2001 / 2 : ℚ) - 1000| = 1/2 by
      rw [show (2001 / 2 : ℚ) - 1000 = 1/2 by norm_num]
      exact abs_of_nonneg (by norm_num)] at h2
    rw [show |(1 / 1000000 * 1000 : ℚ)| = 1/1000 by
      rw [show (1 / 1000000 * 1000 : ℚ) = 1/1000 by norm_num]
      exact abs_of_nonneg (by norm_num)] at h2
    norm_num at h2
  · refine ⟨List.replicate 3 1000, ?_⟩
    norm_num [coordDxs, diffs, allclose_rtol, pyabs]

/-- C6 (amended): with no explicit spacing, `_coord` infers the spacings
from consecutive centers and raises a ValidationError iff they fail
`np.allclose(dxs, dx, atolx)` with `atolx = abs(1e-6·dx)` passed in the
`rtol` slot and `atol` at its numpy default `1e-8`: the acceptance
threshold on each deviation `|dxs[i] - dx|` is `1e-8 + |1e-6·dx|·|dx|`
(quadratic in the spacing), not the claim's `1e-6·|dx|`. -/
theorem C6_equidistance_check (centers : List ℚ) :
    ((∃ e, coordDxs centers none = .error e)
      ↔ ¬ ∀ d ∈ diffs centers,
          |d - (diffs centers).headD 0|
            ≤ 1 / 100000000
              + |1 / 1000000 * (diffs centers).headD 0|
                * |(diffs centers).headD 0|)
    ∧ ((∃ dxs, coordDxs centers none = .ok dxs)
      ↔ ∀ d ∈ diffs centers,
          |d - (diffs centers).headD 0|
            ≤ 1 / 100000000
              + |1 / 1000000 * (diffs centers).headD 0|
                * |(diffs centers).headD 0|) := by
  have hiff := allclose_rtol_iff (diffs centers) ((diffs centers).headD 0)
    (pyabs (1 / 1000000 * (diffs centers).headD 0))
  rw [pyabs_eq_abs] at hiff
  simp only [coordDxs]
  split
  · next hc =>
    rw [pyabs_eq_abs] at hc
    rw [hiff] at hc
    constructor
    · constructor
      · rintro ⟨e, he⟩; cases he
      · intro hn; exact absurd hc hn
    · constructor
      · intro _; exact hc
      · intro _; exact ⟨_, rfl⟩
  · next hc =>
    rw [Bool.not_eq_true] at hc
    rw [pyabs_eq_abs] at hc
    have hne : ¬ ∀ d ∈ diffs centers,
        |d - (diffs centers).headD 0|
          ≤ 1 / 100000000
            + |1 / 1000000 * (diffs centers).headD 0|
              * |(diffs centers).headD 0| := by
      intro hall
      rw [← hiff] at hall
      rw [hc] at hall
      cases hall
    constructor
    · constructor
      · intro _; exact hne
      · intro _; exact ⟨_, rfl⟩
    · constructor
      · rintro ⟨dxs, hdxs⟩; cases hdxs
      · intro hall; exact absurd hall hne

/-- `ensure_dz` never changes the `z` coordinate. -/
theorem ensure_dz_z (like lk : Like) (h : ensure_dz like = .ok lk) :
    lk.z = like.z := by
  unfold ensure_dz at h
  rcases hdz : like.dz with _ | d <;> rw [hdz] at h
  · by_cases hc : allclose_rtol (diffs like.z) ((diffs like.z).headD 0)
        (1 / 100000) = true
    · rw [if_pos hc] at h
      injection h with h; subst h; rfl
    · rw [if_neg hc] at h
      cases h
  · injection h with h; subst h; rfl

/-- C7 counterexample: for `z = [0, 1, 2 + 5e-6]` (spacings 1 and
1 + 5e-6), the `dz` check of `voxelize` (lines 189-196, numpy *default*
tolerances) accepts the axis, while the §4.1 edge-inference check of
`_coord` (threshold `1e-8 + 1e-6·dz²`) rejects the very same axis: the two
checks do not share one tolerance, so the claim's "if and only if" is
false on the code. -/
theorem C7_tolerance_counterexample :
    (ensure_dz ⟨[0, 1, 2 + 1/200000], none, none, none⟩).isOk = true
    ∧ (coordDxs [0, 1, 2 + 1/200000] none).isOk = false := by
  constructor
  · norm_num [ensure_dz, diffs, allclose_rtol, pyabs, Except.isOk,
      Except.toBool]
  · norm_num [coordDxs, diffs, allclose_rtol, pyabs, Except.isOk,
      Except.toBool]

/-- C7 (amended): when the template `like` carries no `dz` coordinate,
`voxelize` accepts it iff its `z` spacings pass `np.allclose(dzs, dz)` at
numpy's default tolerances — each deviation within `1e-8 + 1e-5·|dz|` —
which is not the §4.1 `_coord` tolerance; a ValidationError is raised
otherwise. -/
theorem C7_dz_check_default_tolerance (like : Like) (hdz : like.dz = none) :
    ((∃ lk, ensure_dz like = .ok lk)
      ↔ ∀ d ∈ diffs like.z,
          |d - (diffs like.z).headD 0|
            ≤ 1 / 100000000 + 1 / 100000 * |(diffs like.z).headD 0|)
    ∧ ((∃ e, ensure_dz like = .error e)
      ↔ ¬ ∀ d ∈ diffs like.z,
          |d - (diffs like.z).headD 0|
            ≤ 1 / 100000000 + 1 / 100000 * |(diffs like.z).headD 0|) := by
  have hiff := allclose_rtol_iff (diffs like.z) ((diffs like.z).headD 0)
    (1 / 100000)
  simp only [ensure_dz, hdz]
  split
  · next hc =>
    rw [hiff] at hc
    constructor
    · exact ⟨fun _ => hc, fun _ => ⟨_, rfl⟩⟩
    · constructor
      · rintro ⟨e, he⟩; cases he
      · intro hn; exact absurd hc hn
  · next hc =>
    rw [Bool.not_eq_true] at hc
    have hne : ¬ ∀ d ∈ diffs like.z,
        |d - (diffs like.z).headD 0|
          ≤ 1 / 100000000 + 1 / 100000 * |(diffs like.z).headD 0| := by
      intro hall
      rw [← hiff] at hall
      rw [hc] at hall
      cases hall
    constructor
    · constructor
      · rintro ⟨lk, hlk⟩; cases hlk
      · intro hall; exact absurd hall hne
    · exact ⟨fun _ => hne, fun _ => ⟨_, rfl⟩⟩

/-- Witness for C7's amended theorem at the equidistant axis `[0, 1, 2]`. -/
theorem C7_dz_check_default_tolerance_witness :
    ∃ lk, ensure_dz ⟨[0, 1, 2], none, none, none⟩ = .ok lk := by
  refine ((C7_dz_check_default_tolerance
    ⟨[0, 1, 2], none, none, none⟩ rfl).1).mpr ?_
  intro d hd
  simp only [diffs] at hd
  norm_num at hd
  subst hd
  simp only [diffs]
  norm_num

/-- Witness for C5 at centers `[0, 1, 2]` with inferred spacing: the edge
array is `[-1/2, 1/2, 3/2, 5/2]`. -/
theorem C5_coord_edge_properties_witness :
    coordDxs [0, 1, 2] none = .ok [1, 1, 1]
    ∧ _coord [0, 1, 2] none = .ok [-(1/2), 1/2, 3/2, 5/2]
    ∧ ([-(1/2), 1/2, 3/2, 5/2] : List ℚ).length
        = ([0, 1, 2] : List ℚ).length + 1 := by
  have hdx : coordDxs [(0 : ℚ), 1, 2] none = .ok [1, 1, 1] := by
    norm_num [coordDxs, diffs, allclose_rtol, pyabs, List.replicate]
  have hco : _coord [(0 : ℚ), 1, 2] none = .ok [-(1/2), 1/2, 3/2, 5/2] := by
    rw [_coord, hdx]
    norm_num [applySign, pyabs, List.scanl]
  exact ⟨hdx, hco,
    (C5_coord_edge_properties [0, 1, 2] none [1, 1, 1] [-(1/2), 1/2, 3/2, 5/2]
      (by norm_num) hdx (by norm_num) hco).1⟩

/-- A minimal concrete argument set for the witnesses below. -/
def gridW : Grid3 :=
  { dims := ["layer", "y", "x"], layer_coord := [1], y_coord := [0],
    x_coord := [0], values := fun _ _ _ => 0 }

/-- A minimal destination template for the witnesses below. -/
def likeW : Like :=
  { z := [0, 1, 2], dz := none, y_coord := none, x_coord := none }

/-- C8: the Voxelizer lifecycle is one-way.  Construction leaves the plan
unbuilt with the first-call flag set; the first validation-passing
voxelize call compiles the plan from the configured method and clears the
flag; from then on the transition is the identity (it is idempotent), so
the plan is built exactly once and reused; the method field is never
mutated; and the transition takes no data arguments — a call either leaves
the state untouched (validation failure) or advances it to
`advancePlan s`, whatever the inputs. -/
theorem C8_lifecycle (m : MethodSpec) (urw : Bool) (st s : VoxelizerState)
    (source top bottom : Grid3) (like : Like)
    (hinit : Voxelizer.init m urw = .ok st) :
    (st.first_call = true ∧ st.plan = none)
    ∧ (s.first_call = true →
        advancePlan s
          = { method := s.method, first_call := false,
              plan := some (njit s.method) })
    ∧ (s.first_call = false → advancePlan s = s)
    ∧ advancePlan (advancePlan s) = advancePlan s
    ∧ (advancePlan s).method = s.method
    ∧ ((Voxelizer.voxelize s source top bottom like).1 = s
        ∨ (Voxelizer.voxelize s source top bottom like).1 = advancePlan s)
    ∧ (∀ r, (Voxelizer.voxelize s source top bottom like).2 = .ok r →
        (Voxelizer.voxelize s source top bottom like).1 = advancePlan s) := by
  refine ⟨?_, ?_, ?_, ?_, ?_, ?_, ?_⟩
  · unfold Voxelizer.init at hinit
    rcases hg : _get_method m METHODS with e | f <;> rw [hg] at hinit
    · cases hinit
    · injection hinit with h
      subst h
      exact ⟨rfl, rfl⟩
  · intro h; simp [advancePlan, h]
  · intro h; simp [advancePlan, h]
  · by_cases h : s.first_call <;> simp [advancePlan, h]
  · by_cases h : s.first_call <;> simp [advancePlan, h]
  · unfold Voxelizer.voxelize
    rcases h1 : ensure_dz like with e | lk <;> dsimp only
    · exact Or.inl rfl
    · rcases h2 : dimsCheck top bottom source with e | u <;> dsimp only
      · exact Or.inl rfl
      · rcases h3 : coordsCheck top bottom source with e | u <;> dsimp only
        · exact Or.inl rfl
        · rcases h4 : dstZ lk with e | dz <;> dsimp only
          · exact Or.inr rfl
          · exact Or.inr rfl
  · intro r hok
    unfold Voxelizer.voxelize at hok ⊢
    rcases h1 : ensure_dz like with e | lk
    all_goals rw [h1] at hok
    all_goals try cases hok
    all_goals try dsimp only at hok ⊢
    try rcases h2 : dimsCheck top bottom source with e | u
    all_goals try rw [h2] at hok
    all_goals try cases hok
    all_goals try dsimp only at hok ⊢
    try rcases h3 : coordsCheck top bottom source with e | u
    all_goals try rw [h3] at hok
    all_goals try cases hok
    all_goals try dsimp only at hok ⊢
    try rcases h4 : dstZ lk with e | dz
    all_goals try rw [h4] at hok

/-- Witness for C8: a freshly constructed mean-Voxelizer has the flag set
and no plan. -/
theorem C8_lifecycle_witness :
    ({ method := mean, first_call := true, plan := none }
        : VoxelizerState).first_call = true
    ∧ ({ method := mean, first_call := true, plan := none }
        : VoxelizerState).plan = none :=
  (C8_lifecycle (.name "mean") false
    { method := mean, first_call := true, plan := none }
    { method := mean, first_call := true, plan := none }
    gridW gridW gridW likeW rfl).1

/-- The `ensure_dz` stage on a `like` without `dz`, when its check passes,
assigns the scalar `dz` (line 197). -/
theorem ensure_dz_none_ok (like lk : Like) (hdz : like.dz = none)
    (h : ensure_dz like = .ok lk) :
    lk = { like with dz := some [(diffs like.z).headD 0] } := by
  unfold ensure_dz at h
  rw [hdz] at h
  by_cases hc : allclose_rtol (diffs like.z) ((diffs like.z).headD 0)
      (1 / 100000) = true
  · rw [if_pos hc] at h
    injection h with h
    exact h.symm
  · rw [if_neg hc] at h
    cases h

/-- C9: when the caller's `like` carries no `dz` coordinate and its `z`
passes the equidistance check, `voxelize` assigns the scalar `dz` onto the
caller's `like` itself (line 197): the `like` the caller holds after a
successful call — modelled here as the `Like` handed back by the call —
differs observably from the original (its `dz` is now set), while every
other field of `like` is unchanged; `source`, `top` and `bottom` are never
written by the call (the embedding only ever reads them). -/
theorem C9_like_mutation (s : VoxelizerState) (source top bottom : Grid3)
    (like : Like) (hdz : like.dz = none) (lk : Like)
    (hok : Except.map Prod.snd
        (Voxelizer.voxelize s source top bottom like).2 = .ok lk) :
    lk = { like with dz := some [(diffs like.z).headD 0] } ∧ lk ≠ like := by
  have hlk : lk = { like with dz := some [(diffs like.z).headD 0] } := by
    unfold Voxelizer.voxelize at hok
    rcases h1 : ensure_dz like with e | lk' <;> rw [h1] at hok
    · cases hok
    · dsimp only at hok
      rcases h2 : dimsCheck top bottom source with e | u <;> rw [h2] at hok
      · cases hok
      · dsimp only at hok
        rcases h3 : coordsCheck top bottom source with e | u <;>
          rw [h3] at hok
        · cases hok
        · dsimp only at hok
          rcases h4 : dstZ lk' with e | dz <;> rw [h4] at hok
          · cases hok
          · dsimp only [Except.map] at hok
            injection hok with hok
            subst hok
            exact ensure_dz_none_ok like lk' hdz h1
  refine ⟨hlk, ?_⟩
  intro he
  rw [hlk] at he
  have hd := congrArg Like.dz he
  simp only [hdz] at hd
  cases hd

/-- Witness for C9: with a fresh mean-Voxelizer and an equidistant `z`
axis `[0, 1, 2]`, the call succeeds and hands back `likeW` with its `dz`
set to 1 — observably different from the original `likeW`. -/
theorem C9_like_mutation_witness :
    Except.map Prod.snd (Voxelizer.voxelize
        { method := mean, first_call := true, plan := none }
        gridW gridW gridW likeW).2
      = .ok { z := [0, 1, 2], dz := some [1], y_coord := none,
              x_coord := none }
    ∧ ({ z := [0, 1, 2], dz := some [1], y_coord := none, x_coord := none }
        : Like) ≠ likeW := by
  have hok : Except.map Prod.snd (Voxelizer.voxelize
      { method := mean, first_call := true, plan := none }
      gridW gridW gridW likeW).2
      = .ok { z := [0, 1, 2], dz := some [1], y_coord := none,
              x_coord := none } := by
    norm_num [Voxelizer.voxelize, ensure_dz, diffs, allclose_rtol, pyabs,
      dimsCheck, coordsCheck, advancePlan, dstZ, monotonicIncreasing,
      _coord, coordDxs, _check_monotonic, applySign, likeW, gridW,
      List.replicate, List.scanl, Except.map]
  exact ⟨hok, (C9_like_mutation
    { method := mean, first_call := true, plan := none }
    gridW gridW gridW likeW rfl _ hok).2⟩

/-- `ensure_dz` neither reads nor clobbers the horizontal coordinates of
`like`. -/
theorem ensure_dz_horiz (like : Like) (yc xc : Option (List ℚ)) :
    ensure_dz { like with y_coord := yc, x_coord := xc }
      = Except.map (fun l => { l with y_coord := yc, x_coord := xc })
          (ensure_dz like) := by
  unfold ensure_dz
  dsimp only
  rcases hdz : like.dz with _ | d
  · dsimp only
    by_cases hc : allclose_rtol (diffs like.z) ((diffs like.z).headD 0)
        (1 / 100000) = true
    · rw [if_pos hc, if_pos hc]; rfl
    · rw [if_neg hc, if_neg hc]; rfl
  · dsimp only [Except.map]
    rw [hdz]

/-- `dstZ` only reads the `z` and `dz` coordinates of `like`. -/
theorem dstZ_horiz (like : Like) (yc xc : Option (List ℚ)) :
    dstZ { like with y_coord := yc, x_coord := xc } = dstZ like := rfl

/-- C10: the output of `voxelize` always has dimensions `("z", "y", "x")`;
its `z` coordinate is taken from `like` and its `y` and `x` coordinates
from `source`; and the horizontal coordinates carried by `like` are
ignored entirely — replacing them arbitrarily changes neither the
instance state nor the `VoxResult` (only the handed-back `like` carries
the replaced fields): `voxelize` never resamples horizontally. -/
theorem C10_output_dims_coords (s : VoxelizerState)
    (source top bottom : Grid3) (like : Like) :
    (∀ r lk, (Voxelizer.voxelize s source top bottom like).2 = .ok (r, lk) →
      r.dims = ["z", "y", "x"] ∧ r.z_coord = like.z
      ∧ r.y_coord = source.y_coord ∧ r.x_coord = source.x_coord)
    ∧ (∀ yc xc,
        (Voxelizer.voxelize s source top bottom
            { like with y_coord := yc, x_coord := xc }).1
          = (Voxelizer.voxelize s source top bottom like).1
        ∧ Except.map Prod.fst (Voxelizer.voxelize s source top bottom
            { like with y_coord := yc, x_coord := xc }).2
          = Except.map Prod.fst
              (Voxelizer.voxelize s source top bottom like).2) := by
  constructor
  · intro r lk hok
    unfold Voxelizer.voxelize at hok
    rcases h1 : ensure_dz like with e | lk' <;> rw [h1] at hok
    · cases hok
    · dsimp only at hok
      rcases h2 : dimsCheck top bottom source with e | u <;> rw [h2] at hok
      · cases hok
      · dsimp only at hok
        rcases h3 : coordsCheck top bottom source with e | u <;>
          rw [h3] at hok
        · cases hok
        · dsimp only at hok
          rcases h4 : dstZ lk' with e | dz <;> rw [h4] at hok
          · cases hok
          · dsimp only at hok
            injection hok with hok
            obtain ⟨h5, h6⟩ := Prod.ext_iff.mp hok
            dsimp only at h5 h6
            subst h5
            exact ⟨rfl, ensure_dz_z like lk' h1, rfl, rfl⟩
  · intro yc xc
    unfold Voxelizer.voxelize
    rw [ensure_dz_horiz like yc xc]
    rcases h1 : ensure_dz like with e | lk'
    · exact ⟨rfl, rfl⟩
    · dsimp only [Except.map]
      rcases h2 : dimsCheck top bottom source with e | u
      · exact ⟨rfl, rfl⟩
      · dsimp only
        rcases h3 : coordsCheck top bottom source with e | u
        · exact ⟨rfl, rfl⟩
        · dsimp only
          rw [dstZ_horiz lk' yc xc]
          rcases h4 : dstZ lk' with e | dz
          · exact ⟨rfl, rfl⟩
          · exact ⟨rfl, rfl⟩

end Voxelize
